import Mathlib

/-!
Shallow embedding of `src/scraper.py` (a configuration-driven web scraper)
together with proofs settling the frozen claims about it.

Python strings are modelled as Lean `String` (with `List Char` views where
character-level reasoning is needed), Python `None`-able values as `Option`,
Python dicts with string keys as ordered association lists, and the page
driver (Playwright) as explicit records of query functions.  Loops bounded by
`range(n)` become fuel recursion on `n`.
-/

/-- Truthiness of an optional Python string: `None` and `""` are falsy. -/
def truthyStr : Option String → Bool
  | none => false
  | some s => !(s == "")

/-! ### `normalize_text` (scraper.py lines 27-31)

Python: `cleaned = " ".join(value.split())`.  `str.split()` with no separator
splits on runs of whitespace and never yields empty fragments; it is modelled
by a left-to-right scan `splitWSAux` carrying the current word (reversed).
Whitespace is modelled by `Char.isWhitespace` (space, tab, CR, LF). -/

/-- Scan modelling Python `str.split()`: `acc` is the current in-progress
word, reversed.  Words are emitted at whitespace boundaries and at the end. -/
def splitWSAux : List Char → List Char → List (List Char)
  | [], acc => if acc = [] then [] else [acc.reverse]
  | c :: rest, acc =>
    if c.isWhitespace then
      if acc = [] then splitWSAux rest [] else acc.reverse :: splitWSAux rest []
    else splitWSAux rest (c :: acc)

/-- Python `value.split()` on the character list of `value`. -/
def pyWords (l : List Char) : List (List Char) := splitWSAux l []

/-- Python `" ".join(parts)` at the character-list level. -/
def joinWords : List (List Char) → List Char
  | [] => []
  | [w] => w
  | w :: v :: ws => w ++ ' ' :: joinWords (v :: ws)

/-- Embedding of `normalize_text` (scraper.py lines 27-31). -/
def normalize_text (value : Option String) : Option String :=
  match value with
  | none => none
  | some v =>
    let cleaned := String.mk (joinWords (pyWords v.toList))
    if cleaned = "" then none else some cleaned

/-! ### `extract_value` (scraper.py lines 34-53) -/

/-- Characters of the literal `"mailto:"`. -/
def mailtoChars : List Char := "mailto:".toList

/-- Python `s.replace(old, new, 1)` for a non-empty pattern: replace the first
occurrence of `pat` in `s` (scanning left to right), if any. -/
def replaceOnce : List Char → List Char → List Char → List Char
  | [], _, _ => []
  | c :: rest, pat, sub =>
    if (c :: rest).take pat.length = pat then sub ++ (c :: rest).drop pat.length
    else c :: replaceOnce rest pat sub

/-- A field configuration: either a bare selector string or a structured
mapping with optional `selector` and `attr` keys (scraper.py line 34). -/
inductive FieldSpec where
  | bare (selector : String)
  | structured (selector : Option String) (attr : Option String)

/-- A DOM element returned by a query: the reads `extract_value` performs on
it.  `get_attribute` returns `none` when the attribute is absent. -/
structure Target where
  inner_text : String
  get_attribute : String → Option String

/-- An item-scoped element: `query_selector` returns the first descendant
matching a selector, or `none` when there is no match. -/
structure Element where
  query_selector : String → Option Target

/-- Embedding of `extract_value` (scraper.py lines 34-53).  Python's early
returns become nested matches; `if not selector` / `if attr:` / `if value`
are string truthiness tests. -/
def extract_value (element : Element) (field_config : FieldSpec) : Option String :=
  match field_config with
  | .bare sel =>
    match element.query_selector sel with
    | none => none
    | some target => normalize_text (some target.inner_text)
  | .structured selector attr =>
    if truthyStr selector then
      match element.query_selector (selector.getD ("")) with
      | none => none
      | some target =>
        if truthyStr attr then
          let a := attr.getD ("")
          match target.get_attribute a with
          | none => normalize_text none
          | some value =>
            let value :=
              if value ≠ "" ∧ a = "href" ∧ value.toList.take mailtoChars.length = mailtoChars
              then String.mk (replaceOnce value.toList mailtoChars [])
              else value
            normalize_text (some value)
        else normalize_text (some target.inner_text)
    else none

/-! ### Configuration records (the YAML dict consumed by scraper.py)

Every key read with `.get(key, default)` in the source is an `Option` field
(`none` models an absent key); keys read with `[...]` are plain fields. -/

/-- The `extraction` section of the config (`item_selector`, `fields`);
`fields` is an insertion-ordered dict of field name to field config. -/
structure ExtractionConfig where
  item_selector : String
  fields : List (String × FieldSpec)

/-- The `scroll` section of the config (scraper.py lines 70-72). -/
structure ScrollConfig where
  max_scrolls : Option Nat
  pause_ms : Option Nat
  stop_after_unchanged : Option Nat

/-- The `pagination` section of the config (scraper.py lines 90-91, 107-112). -/
structure PaginationConfig where
  next_button_selector : Option String
  url_template : Option String
  start_page : Option Nat
  max_pages : Option Nat
  pause_ms : Option Nat

/-- The top-level config dict as read by `main` (scraper.py lines 141-170). -/
structure Config where
  start_urls : List String
  mode : Option String
  scroll : ScrollConfig
  pagination : PaginationConfig
  extraction : ExtractionConfig
  columns : Option (List String)

/-- A record produced for one item: an insertion-ordered dict from field name
to extracted optional value. -/
abbrev Record := List (String × Option String)

/-- Python `record.get(col)` on a `Record`: `none` both when the key is absent
and when it is present with value `None`. -/
def pyGet : Record → String → Option String
  | [], _ => none
  | (k, v) :: rest, key => if k = key then v else pyGet rest key

/-! ### `extract_items` (scraper.py lines 56-66)

The page is modelled by its `query_selector_all` capability: a function from
selector to the matched elements in document order. -/

/-- Embedding of `extract_items` (scraper.py lines 56-66). -/
def extract_items (queryAll : String → List Element) (config : Config) : List Record :=
  let item_selector := config.extraction.item_selector
  let fields := config.extraction.fields
  let elements := queryAll item_selector
  elements.map (fun element => fields.map (fun p => (p.1, extract_value element p.2)))

/-! ### `scroll_page` (scraper.py lines 69-87)

The page driver's successive `document.body.scrollHeight` readings are a
function `heights : Nat → Nat` (reading index to height).  The Python function
returns `None`; the embedding returns the number of height measurements
performed, the observable the claims are about. -/

/-- Loop of `scroll_page`: `fuel` is the remaining `range(max_scrolls)`
iterations, `k` the number of measurements already taken. -/
def scrollAux (heights : Nat → Nat) (stop_after_unchanged : Nat) :
    Nat → Nat → Nat → Nat → Nat
  | 0, k, _, _ => k
  | fuel + 1, k, unchanged, previous_height =>
    let current_height := heights k
    let unchanged2 := if current_height = previous_height then unchanged + 1 else 0
    if stop_after_unchanged ≤ unchanged2 then k + 1
    else scrollAux heights stop_after_unchanged fuel (k + 1) unchanged2 current_height

/-- Embedding of `scroll_page` (scraper.py lines 69-87), returning the number
of height measurements.  `unchanged` starts at 0 and `previous_height` at 0. -/
def scroll_page (heights : Nat → Nat) (scroll_config : ScrollConfig) : Nat :=
  scrollAux heights (scroll_config.stop_after_unchanged.getD 3)
    (scroll_config.max_scrolls.getD 50) 0 0 0

/-! ### `paginate` (scraper.py lines 89-103)

Clicking mutates the page, so the extraction callback and the next-button
lookup are indexed by the iteration number: `extract_callback k` is what the
callback returns on its `k`-th invocation and `nextFound k` whether
`page.query_selector(next_selector)` finds a button on iteration `k`. -/

/-- Loop of `paginate`; returns the accumulated results and the number of
`extract_callback` invocations performed. -/
def paginateAux (nextFound : Nat → Bool) (truthyNext : Bool)
    (extract_callback : Nat → List Record) :
    Nat → Nat → List Record → List Record × Nat
  | 0, i, acc => (acc, i)
  | fuel + 1, i, acc =>
    let acc2 := acc ++ extract_callback i
    if truthyNext then
      if nextFound i then paginateAux nextFound truthyNext extract_callback fuel (i + 1) acc2
      else (acc2, i + 1)
    else (acc2, i + 1)

/-- Embedding of `paginate` (scraper.py lines 89-103): results paired with the
number of extraction-callback invocations. -/
def paginate (nextFound : Nat → Bool) (pagination_config : PaginationConfig)
    (extract_callback : Nat → List Record) : List Record × Nat :=
  paginateAux nextFound (truthyStr pagination_config.next_button_selector)
    extract_callback (pagination_config.max_pages.getD 50) 0 []

/-! ### `paginate_by_url` (scraper.py lines 106-118) -/

/-- Embedding of `paginate_by_url` (scraper.py lines 106-118): results paired
with the page numbers navigated to, in order.  `extract_callback k` is the
extraction result on the `k`-th visited page. -/
def paginate_by_url (pagination_config : PaginationConfig)
    (extract_callback : Nat → List Record) : List Record × List Nat :=
  if truthyStr pagination_config.url_template then
    let start_page := pagination_config.start_page.getD 1
    let max_pages := pagination_config.max_pages.getD 50
    (((List.range max_pages).map extract_callback).flatten,
      (List.range max_pages).map (fun k => start_page + k))
  else ([], [])

/-! ### `ensure_columns` (scraper.py lines 121-125) -/

/-- Embedding of `ensure_columns` (scraper.py lines 121-125): project every
record onto the ordered column list, absent columns becoming `None`. -/
def ensure_columns (records : List Record) (columns : List String) : List Record :=
  records.map (fun record => columns.map (fun col => (col, pyGet record col)))

/-! ### `main` (scraper.py lines 128-179)

Only the per-URL traversal loop is modelled (argument parsing, browser
startup and the Excel sink are out of the core).  The page driver's behavior
while processing the `k`-th start URL is a `UrlSession`; `main`'s `page.goto`
calls are collected in a navigation trace, and the `ValueError` raised on an
unknown mode becomes `Except.error`. -/

/-- Default output columns (scraper.py lines 11-19). -/
def DEFAULT_COLUMNS : List String :=
  ["company_name", "address", "email", "website", "phone", "country", "field"]

/-- Page-driver behavior during the processing of one start URL:
`heights` are the scroll-height readings, `afterScroll` the element query
after scrolling settles, `pageAt k` / `urlPageAt k` the element query at the
`k`-th extraction of click / URL pagination, and `nextAt k` whether the next
button is found on click-pagination iteration `k`. -/
structure UrlSession where
  heights : Nat → Nat
  afterScroll : String → List Element
  pageAt : Nat → String → List Element
  nextAt : Nat → Bool
  urlPageAt : Nat → String → List Element

/-- Mode dispatch of `main` for one start URL (scraper.py lines 151-170),
after the `page.goto` for that URL. -/
def processUrl (s : UrlSession) (config : Config) : Except String (List Record) :=
  let mode := config.mode.getD ("infinite_scroll")
  if mode = "infinite_scroll" then
    let _ := scroll_page s.heights config.scroll
    Except.ok (extract_items s.afterScroll config)
  else if mode = "pagination" then
    if truthyStr config.pagination.url_template then
      Except.ok (paginate_by_url config.pagination
        (fun k => extract_items (s.urlPageAt k) config)).1
    else
      Except.ok (paginate s.nextAt config.pagination
        (fun k => extract_items (s.pageAt k) config)).1
  else Except.error ("Unknown mode: " ++ mode)

/-- The `for url in config.get("start_urls", [])` loop of `main` (scraper.py
lines 149-173).  `navs` is the trace of `page.goto` calls made by `main`; the
`goto` for a URL happens before the mode dispatch, so it is recorded even when
the dispatch then fails. -/
def mainLoop (pages : Nat → UrlSession) (config : Config) :
    List String → Nat → List String → List Record →
      List String × Except String (List Record)
  | [], _, navs, acc => (navs, Except.ok acc)
  | url :: rest, k, navs, acc =>
    match processUrl (pages k) config with
    | Except.error e => (navs ++ [url], Except.error e)
    | Except.ok records => mainLoop pages config rest (k + 1) (navs ++ [url]) (acc ++ records)

/-- Embedding of the traversal core of `main` (scraper.py lines 141-177):
the navigation trace together with either the raised error or the final
records after `ensure_columns`. -/
def mainRun (pages : Nat → UrlSession) (config : Config) :
    List String × Except String (List Record) :=
  match mainLoop pages config config.start_urls 0 [] [] with
  | (navs, Except.error e) => (navs, Except.error e)
  | (navs, Except.ok records) =>
    (navs, Except.ok (ensure_columns records (config.columns.getD DEFAULT_COLUMNS)))

/-! ### Specification-side normalization

`specNormalize` is modelled from the spec's words, to be compared with the
source's `normalize_text`: "collapse all runs of whitespace (including
newlines/tabs) to single ASCII spaces, trim leading/trailing whitespace; if
the result is an empty string, return null". -/

/-- Collapse every run of whitespace characters to a single ASCII space. -/
def collapseRuns : List Char → List Char
  | [] => []
  | [c] => if c.isWhitespace then [' '] else [c]
  | c :: d :: rest =>
    if c.isWhitespace then
      if d.isWhitespace then collapseRuns (d :: rest)
      else ' ' :: collapseRuns (d :: rest)
    else c :: collapseRuns (d :: rest)

/-- Remove leading whitespace. -/
def trimLeadWS (l : List Char) : List Char := l.dropWhile Char.isWhitespace

/-- Remove trailing whitespace. -/
def trimTrailWS (l : List Char) : List Char :=
  (l.reverse.dropWhile Char.isWhitespace).reverse

/-- Collapse whitespace runs, then trim both ends. -/
def wsCollapseTrim (l : List Char) : List Char := trimTrailWS (trimLeadWS (collapseRuns l))

/-- Normalization as worded by the spec: collapse, trim, empty becomes null. -/
def specNormalize (s : String) : Option String :=
  match wsCollapseTrim s.toList with
  | [] => none
  | t => some (String.mk t)


/-! ### Concrete instances used by witnesses and counterexamples -/

/-- Height readings of the C1 scenario: 100 first, then 200 on every later
reading (the page has stabilized at height 200). -/
def heightsC1 : Nat → Nat := fun i => if i = 0 then 100 else 200

/-- A page driver session with no elements and no next button. -/
def sessionTriv : UrlSession :=
  ⟨fun _ => 0, fun _ => [], fun _ _ => [], fun _ => false, fun _ _ => []⟩

/-- A configuration whose mode is neither of the two known modes. -/
def cfgBadMode : Config :=
  ⟨["https://example.com"], some ("bogus"), ⟨none, none, none⟩,
    ⟨none, none, none, none, none⟩, ⟨".item", []⟩, none⟩

/-- An extraction callback returning one nonempty record per invocation. -/
def cbOne : Nat → List Record := fun _ => [[("name", some ("x"))]]

/-- A target whose href attribute is a mailto link. -/
def targetMail : Target := ⟨"", fun _ => some ("mailto:x@y.com")⟩

/-- An element on which every selector query finds `targetMail`. -/
def elemMail : Element := ⟨fun _ => some targetMail⟩

/-- An element whose queried descendant has inner text `"Acme"`. -/
def elemA : Element := ⟨fun _ => some ⟨"Acme", fun _ => none⟩⟩

/-- A page query returning the single element `elemA` for every selector. -/
def qa0 : String → List Element := fun _ => [elemA]

/-- A configuration with a one-field extraction schema. -/
def cfg0 : Config :=
  ⟨[], none, ⟨none, none, none⟩, ⟨none, none, none, none, none⟩,
    ⟨".item", [("name", FieldSpec.bare ("h1"))]⟩, none⟩

/-- A one-record input for the projection claims: one known field, one extra. -/
def recs0 : List Record := [[("name", some ("Acme")), ("extra", some ("x"))]]

/-- Columns for the projection claims: one present in `recs0`, one missing. -/
def cols0 : List String := ["name", "missing"]

/-! ### Helper lemmas: words-based versus collapse-and-trim normalization -/

/-- Structural characterization of Python `str.split()`: peel one word with
`takeWhile` and recurse on the rest. -/
def pyWordsT : List Char → List (List Char)
  | [] => []
  | c :: rest =>
    if c.isWhitespace then pyWordsT rest
    else (c :: rest.takeWhile (fun d => !d.isWhitespace)) ::
      pyWordsT (rest.dropWhile (fun d => !d.isWhitespace))
termination_by l => l.length
decreasing_by
  · simp only [List.length_cons]
    omega
  · have h := (List.dropWhile_sublist (l := rest) (fun d => !d.isWhitespace)).length_le
    simp only [List.length_cons]
    omega

theorem splitWSAux_eq (l : List Char) : ∀ acc : List Char,
    splitWSAux l acc =
      if acc = [] then pyWordsT l
      else (acc.reverse ++ l.takeWhile (fun d => !d.isWhitespace)) ::
        pyWordsT (l.dropWhile (fun d => !d.isWhitespace)) := by
  induction l with
  | nil =>
    intro acc
    by_cases h : acc = [] <;> simp [splitWSAux, pyWordsT, h]
  | cons c rest ih =>
    intro acc
    by_cases hc : c.isWhitespace
    · by_cases h : acc = [] <;>
        simp [splitWSAux, pyWordsT, hc, h, ih, List.takeWhile_cons, List.dropWhile_cons]
    · have hc' : (!c.isWhitespace) = true := by simp [hc]
      by_cases h : acc = [] <;>
        simp [splitWSAux, pyWordsT, hc, h, ih, List.takeWhile_cons, List.dropWhile_cons, hc']

theorem pyWords_eq_pyWordsT (l : List Char) : pyWords l = pyWordsT l := by
  simpa using splitWSAux_eq l []

theorem dropWhile_of_forall_neg {p : Char → Bool} {l : List Char}
    (h : ∀ x ∈ l, p x = false) : l.dropWhile p = l := by
  cases l with
  | nil => rfl
  | cons a l => simp [List.dropWhile_cons, h a (by simp)]

theorem head_dropWhile_false {p : Char → Bool} (l : List Char) :
    ∀ {b : Char} {bs : List Char}, l.dropWhile p = b :: bs → p b = false := by
  induction l with
  | nil => intro b bs h; simp [List.dropWhile] at h
  | cons a l ih =>
    intro b bs h
    rw [List.dropWhile_cons] at h
    by_cases ha : p a
    · rw [if_pos ha] at h
      exact ih h
    · rw [if_neg ha] at h
      cases h
      simpa using ha

theorem trimTrailWS_all_neg {w : List Char}
    (h : ∀ x ∈ w, x.isWhitespace = false) : trimTrailWS w = w := by
  unfold trimTrailWS
  rw [dropWhile_of_forall_neg (by simpa using h)]
  simp

theorem trimTrailWS_append_ws {w : List Char} {x : Char} (hx : x.isWhitespace) :
    trimTrailWS (w ++ [x]) = trimTrailWS w := by
  unfold trimTrailWS
  simp [List.dropWhile_cons, hx]

theorem trimTrailWS_ne_nil {f : Char} {z : List Char} (hf : f.isWhitespace = false) :
    trimTrailWS (f :: z) ≠ [] := by
  unfold trimTrailWS
  intro h
  rw [List.reverse_eq_nil_iff, List.dropWhile_eq_nil_iff] at h
  have := h f (by simp)
  rw [hf] at this
  exact Bool.false_ne_true this

theorem dropWhile_append_of_ne_nil {p : Char → Bool} {a : List Char} (b : List Char)
    (h : a.dropWhile p ≠ []) : (a ++ b).dropWhile p = a.dropWhile p ++ b := by
  induction a with
  | nil => simp at h
  | cons x a ih =>
    by_cases hx : p x
    · rw [List.dropWhile_cons, if_pos hx] at h
      rw [List.cons_append, List.dropWhile_cons, if_pos hx,
        List.dropWhile_cons, if_pos hx]
      exact ih h
    · simp [List.dropWhile_cons, hx]

theorem trimTrailWS_append_of_ne_nil {y : List Char} (w : List Char)
    (h : trimTrailWS y ≠ []) : trimTrailWS (w ++ y) = w ++ trimTrailWS y := by
  unfold trimTrailWS at *
  have hy : y.reverse.dropWhile Char.isWhitespace ≠ [] := by
    intro hc
    rw [hc] at h
    simp at h
  rw [List.reverse_append, dropWhile_append_of_ne_nil _ hy]
  simp

theorem collapseRuns_word_append {w : List Char} (r : List Char)
    (hw : ∀ x ∈ w, x.isWhitespace = false) :
    collapseRuns (w ++ r) = w ++ collapseRuns r := by
  induction w with
  | nil => rfl
  | cons a w ih =>
    have ha : a.isWhitespace = false := hw a (by simp)
    cases w with
    | nil =>
      cases r with
      | nil => simp [collapseRuns, ha]
      | cons e r2 => simp [collapseRuns, ha]
    | cons b w2 =>
      have : collapseRuns (a :: b :: (w2 ++ r)) = a :: collapseRuns (b :: (w2 ++ r)) := by
        simp [collapseRuns, ha]
      rw [List.cons_append, List.cons_append, this]
      rw [← List.cons_append, ih (fun x hx => hw x (by simp [hx]))]
      simp

theorem collapseRuns_ws_cons (r' : List Char) :
    ∀ {e : Char}, e.isWhitespace →
      collapseRuns (e :: r') =
        if r'.dropWhile Char.isWhitespace = [] then [' ']
        else ' ' :: collapseRuns (r'.dropWhile Char.isWhitespace) := by
  induction r' with
  | nil => intro e he; simp [collapseRuns, he]
  | cons d r2 ih =>
    intro e he
    by_cases hd : d.isWhitespace
    · have h1 : collapseRuns (e :: d :: r2) = collapseRuns (d :: r2) := by
        simp [collapseRuns, he, hd]
      rw [h1, ih hd, List.dropWhile_cons, if_pos hd]
    · have h1 : collapseRuns (e :: d :: r2) = ' ' :: collapseRuns (d :: r2) := by
        simp [collapseRuns, he, hd]
      rw [h1, List.dropWhile_cons, if_neg hd]
      simp

theorem collapseRuns_cons_not_ws {f : Char} (q' : List Char) (hf : f.isWhitespace = false) :
    ∃ z, collapseRuns (f :: q') = f :: z := by
  cases q' with
  | nil => exact ⟨[], by simp [collapseRuns, hf]⟩
  | cons g q2 => exact ⟨collapseRuns (g :: q2), by simp [collapseRuns, hf]⟩

theorem trimLeadWS_collapse_ws_cons {c : Char} (rest : List Char) (hc : c.isWhitespace) :
    trimLeadWS (collapseRuns (c :: rest)) = trimLeadWS (collapseRuns rest) := by
  cases rest with
  | nil => simp [collapseRuns, trimLeadWS, hc, List.dropWhile_cons]
  | cons d r2 =>
    by_cases hd : d.isWhitespace
    · simp [collapseRuns, hc, hd]
    · simp [collapseRuns, hc, hd, trimLeadWS, List.dropWhile_cons]

theorem pyWordsT_dropWhile_ws (l : List Char) :
    pyWordsT (l.dropWhile Char.isWhitespace) = pyWordsT l := by
  induction l with
  | nil => rfl
  | cons a l2 ih =>
    rw [List.dropWhile_cons]
    by_cases ha : a.isWhitespace
    · rw [if_pos ha, ih]
      rw [pyWordsT]
      simp [ha]
    · rw [if_neg ha]

theorem joinWords_pyWordsT : ∀ (n : Nat) (l : List Char), l.length ≤ n →
    joinWords (pyWordsT l) = wsCollapseTrim l := by
  intro n
  induction n with
  | zero =>
    intro l hl
    have hnil : l = [] := List.length_eq_zero.mp (Nat.le_zero.mp hl)
    subst hnil
    simp [pyWordsT, joinWords, wsCollapseTrim, trimLeadWS, trimTrailWS, collapseRuns]
  | succ n ih =>
    intro l hl
    cases l with
    | nil => simp [pyWordsT, joinWords, wsCollapseTrim, trimLeadWS, trimTrailWS, collapseRuns]
    | cons c rest =>
      have hrest : rest.length ≤ n := by
        simp only [List.length_cons] at hl
        omega
      by_cases hc : c.isWhitespace
      · have h1 : pyWordsT (c :: rest) = pyWordsT rest := by simp [pyWordsT, hc]
        rw [h1, ih rest hrest]
        unfold wsCollapseTrim
        rw [trimLeadWS_collapse_ws_cons rest hc]
      · have hwordall : ∀ x ∈ c :: rest.takeWhile (fun d => !d.isWhitespace),
            x.isWhitespace = false := by
          intro x hx
          rcases List.mem_cons.mp hx with h | h
          · subst h
            simpa using hc
          · simpa using List.mem_takeWhile_imp h
        have hpw : pyWordsT (c :: rest) =
            (c :: rest.takeWhile (fun d => !d.isWhitespace)) ::
              pyWordsT (rest.dropWhile (fun d => !d.isWhitespace)) := by
          simp [pyWordsT, hc]
        have hcollapse : collapseRuns (c :: rest) =
            (c :: rest.takeWhile (fun d => !d.isWhitespace)) ++
              collapseRuns (rest.dropWhile (fun d => !d.isWhitespace)) := by
          conv_lhs =>
            rw [show c :: rest
                = (c :: rest.takeWhile (fun d => !d.isWhitespace)) ++
                    rest.dropWhile (fun d => !d.isWhitespace) by
              simp [List.takeWhile_append_dropWhile]]
          exact collapseRuns_word_append _ hwordall
        unfold wsCollapseTrim
        rw [hpw, hcollapse]
        rw [show trimLeadWS ((c :: rest.takeWhile (fun d => !d.isWhitespace)) ++
              collapseRuns (rest.dropWhile (fun d => !d.isWhitespace)))
            = (c :: rest.takeWhile (fun d => !d.isWhitespace)) ++
              collapseRuns (rest.dropWhile (fun d => !d.isWhitespace)) by
          unfold trimLeadWS
          rw [List.cons_append, List.dropWhile_cons, if_neg (by simpa using hc)]]
        rcases hdrop : rest.dropWhile (fun d => !d.isWhitespace) with _ | ⟨e, r'⟩
        · rw [hdrop]
          simp only [pyWordsT, joinWords, collapseRuns, List.append_nil]
          exact (trimTrailWS_all_neg hwordall).symm
        · rw [hdrop]
          have he : e.isWhitespace = true := by
            have := head_dropWhile_false rest hdrop
            simpa using this
          have hpwe : pyWordsT (e :: r') = pyWordsT (r'.dropWhile Char.isWhitespace) := by
            rw [pyWordsT_dropWhile_ws r']
            simp [pyWordsT, he]
          have hlen1 : r'.length + 1 ≤ rest.length := by
            have hs := (List.dropWhile_sublist (l := rest)
              (fun d => !d.isWhitespace)).length_le
            rw [hdrop] at hs
            simpa using hs
          rw [collapseRuns_ws_cons r' he]
          rcases hq : r'.dropWhile Char.isWhitespace with _ | ⟨f, q'⟩
          · rw [hq] at hpwe
            rw [if_pos rfl, hpwe]
            simp only [pyWordsT, joinWords]
            rw [trimTrailWS_append_ws (by decide)]
            exact (trimTrailWS_all_neg hwordall).symm
          · rw [hq] at hpwe
            rw [if_neg (by simp)]
            have hf : f.isWhitespace = false := head_dropWhile_false r' hq
            have hlen2 : q'.length + 1 ≤ r'.length := by
              have hs := (List.dropWhile_sublist (l := r') Char.isWhitespace).length_le
              rw [hq] at hs
              simpa using hs
            have hIH := ih (f :: q') (by simp only [List.length_cons]; omega)
            obtain ⟨z, hz⟩ := collapseRuns_cons_not_ws q' hf
            have hIH' : joinWords (pyWordsT (f :: q')) = trimTrailWS (collapseRuns (f :: q')) := by
              rw [hIH]
              unfold wsCollapseTrim
              rw [hz]
              unfold trimLeadWS
              rw [List.dropWhile_cons, if_neg (by simp [hf])]
            have hne : trimTrailWS (collapseRuns (f :: q')) ≠ [] := by
              rw [hz]
              exact trimTrailWS_ne_nil hf
            have hpwfq : pyWordsT (f :: q') =
                (f :: q'.takeWhile (fun d => !d.isWhitespace)) ::
                  pyWordsT (q'.dropWhile (fun d => !d.isWhitespace)) := by
              simp [pyWordsT, hf]
            rw [hpwe, hpwfq, joinWords, ← hpwfq, hIH']
            rw [show ((c :: rest.takeWhile (fun d => !d.isWhitespace)) ++
                  ' ' :: collapseRuns (f :: q'))
                = ((c :: rest.takeWhile (fun d => !d.isWhitespace)) ++ [' ']) ++
                  collapseRuns (f :: q') by simp]
            rw [trimTrailWS_append_of_ne_nil _ hne]
            simp


/-! ### Claim theorems -/

theorem replaceOnce_of_take_eq {l : List Char}
    (h : l.take mailtoChars.length = mailtoChars) :
    replaceOnce l mailtoChars [] = l.drop mailtoChars.length := by
  cases l with
  | nil => exact absurd h (by decide)
  | cons c rest => simp [replaceOnce, h]

/-- Claim C5: text normalization collapses every whitespace run (newlines and
tabs included) to one ASCII space and trims the ends; an empty result becomes
null and a null input stays null; in particular `"  a\n\t b  "` normalizes to
`"a b"`.  Stated as agreement of the source's `normalize_text` with the
spec-worded `specNormalize` on every input. -/
theorem c5_normalize_text :
    normalize_text none = none ∧
    (∀ s : String, normalize_text (some s) = specNormalize s) ∧
    normalize_text (some ("  a\n\t b  ")) = some ("a b") := by
  refine ⟨rfl, ?_, by decide⟩
  intro s
  have h : joinWords (pyWords s.toList) = wsCollapseTrim s.toList := by
    rw [pyWords_eq_pyWordsT]
    exact joinWords_pyWordsT s.toList.length _ le_rfl
  show (if String.mk (joinWords (pyWords s.toList)) = "" then none
      else some (String.mk (joinWords (pyWords s.toList)))) = specNormalize s
  rw [h]
  unfold specNormalize
  generalize wsCollapseTrim s.toList = t
  cases t with
  | nil => simp
  | cons a t' =>
    have hne : String.mk (a :: t') ≠ "" := by
      intro hcon
      simp [String.ext_iff] at hcon
    rw [if_neg hne]

/-- Claim C6: a structured field spec whose selector is missing or empty
yields `none` for every element and every attribute choice, and (being a
total function) never raises. -/
theorem c6_empty_selector (element : Element) (attr : Option String) :
    extract_value element (.structured none attr) = none ∧
    extract_value element (.structured (some ("")) attr) = none := by
  exact ⟨rfl, rfl⟩

/-- Claim C4: reading attribute `href` through a structured spec strips a
leading `mailto:` (case-sensitively, at the first occurrence, which the guard
pins to position 0) before normalization, and passes every other value to
normalization unchanged. -/
theorem c4_mailto (element : Element) (sel : String) (target : Target) (v : String)
    (hsel : sel ≠ "")
    (hq : element.query_selector sel = some target)
    (ha : target.get_attribute ("href") = some v) :
    extract_value element (.structured (some sel) (some ("href"))) =
      if v.toList.take mailtoChars.length = mailtoChars
      then normalize_text (some (String.mk (v.toList.drop mailtoChars.length)))
      else normalize_text (some v) := by
  have ht : truthyStr (some sel) = true := by
    simp [truthyStr]
    intro hcon
    exact hsel (by simpa using hcon)
  have ht2 : truthyStr (some ("href" : String)) = true := by simp [truthyStr]
  simp only [extract_value, ht, if_true, Option.getD_some, hq, ht2, ha]
  by_cases hstart : v.toList.take mailtoChars.length = mailtoChars
  · have hvne : v ≠ "" := by
      intro hcon
      subst hcon
      exact absurd hstart (by decide)
    rw [if_pos hstart, if_pos ⟨hvne, by trivial, hstart⟩, replaceOnce_of_take_eq hstart]
  · rw [if_neg hstart, if_neg (fun hcon => hstart hcon.2.2)]

/-- Witness for claim C4 at a mailto-valued href. -/
theorem c4_witness :
    extract_value elemMail (.structured (some ("a.mail")) (some ("href"))) =
      some ("x@y.com") := by
  have h := c4_mailto elemMail ("a.mail") targetMail ("mailto:x@y.com")
    (by decide) rfl rfl
  exact h.trans (by decide)

/-- Claim C7: extraction yields one record per matched element, in document
order, and each record carries exactly the schema's field names as keys, in
schema order — no record is filtered out. -/
theorem c7_extract_items (queryAll : String → List Element) (config : Config) :
    (extract_items queryAll config).length
        = (queryAll config.extraction.item_selector).length ∧
    (∀ r ∈ extract_items queryAll config,
      r.map Prod.fst = config.extraction.fields.map Prod.fst) ∧
    ∀ (i : Nat) (h1 : i < (extract_items queryAll config).length)
      (h2 : i < (queryAll config.extraction.item_selector).length),
      (extract_items queryAll config)[i] =
        config.extraction.fields.map
          (fun p => (p.1, extract_value (queryAll config.extraction.item_selector)[i] p.2)) := by
  refine ⟨by simp [extract_items], ?_, ?_⟩
  · intro r hr
    simp only [extract_items, List.mem_map] at hr
    obtain ⟨element, _, rfl⟩ := hr
    simp
  · intro i h1 h2
    simp [extract_items]

/-- Witness for claim C7: one element, one-field schema, record extracted. -/
theorem c7_witness :
    (extract_items qa0 cfg0).get ⟨0, by decide⟩ = [("name", some ("Acme"))] := by
  have h := (c7_extract_items qa0 cfg0).2.2 0 (by decide) (by decide)
  exact (List.get_eq_getElem _ _).trans (h.trans (by decide))

theorem pyGet_eq_none_of_not_mem {record : Record} {c : String}
    (h : ∀ q ∈ record, q.1 ≠ c) : pyGet record c = none := by
  induction record with
  | nil => rfl
  | cons q rest ih =>
    obtain ⟨k, v⟩ := q
    rw [pyGet, if_neg (h (k, v) (by simp))]
    exact ih (fun q hq => h q (by simp [hq]))

theorem pyGet_projected {columns : List String} (record : Record) {c : String}
    (hc : c ∈ columns) :
    pyGet (columns.map (fun col => (col, pyGet record col))) c = pyGet record c := by
  induction columns with
  | nil => cases hc
  | cons x cols ih =>
    simp only [List.map_cons, pyGet]
    by_cases hx : x = c
    · subst hx
      rw [if_pos rfl]
    · rw [if_neg hx]
      refine ih ?_
      rcases List.mem_cons.mp hc with h | h
      · exact absurd h.symm hx
      · exact h

/-- Claim C8: each projected record has exactly the column list as its keys,
in that order; looked up through the projection each column carries the source
record's value for it (so a column the source record lacks maps to null), and
no key outside the column list survives. -/
theorem c8_projection (records : List Record) (columns : List String) (i : Nat)
    (h1 : i < (ensure_columns records columns).length) (h2 : i < records.length) :
    ((ensure_columns records columns)[i]).map Prod.fst = columns ∧
    (∀ c ∈ columns,
      pyGet ((ensure_columns records columns)[i]) c = pyGet (records[i]) c) ∧
    (∀ c ∈ columns, (∀ q ∈ records[i], q.1 ≠ c) →
      pyGet ((ensure_columns records columns)[i]) c = none) ∧
    ∀ p ∈ (ensure_columns records columns)[i], p.1 ∈ columns := by
  have hget : (ensure_columns records columns)[i] =
      columns.map (fun col => (col, pyGet (records[i]) col)) := by
    simp [ensure_columns]
  refine ⟨?_, ?_, ?_, ?_⟩
  · rw [hget, List.map_map]
    exact List.map_id columns
  · intro c hc
    rw [hget]
    exact pyGet_projected _ hc
  · intro c hc hmiss
    rw [hget, pyGet_projected _ hc]
    exact pyGet_eq_none_of_not_mem hmiss
  · intro p hp
    rw [hget] at hp
    simp only [List.mem_map] at hp
    obtain ⟨col, hcol, rfl⟩ := hp
    exact hcol

/-- Witness for claim C8: projecting `recs0` onto `cols0` yields exactly the
columns as keys. -/
theorem c8_witness :
    ((ensure_columns recs0 cols0).get ⟨0, by decide⟩).map Prod.fst = cols0 := by
  have h := (c8_projection recs0 cols0 0 (by decide) (by decide)).1
  exact (congrArg (List.map Prod.fst) (List.get_eq_getElem _ _)).trans h

/-- Claim C9: projecting twice with the same column list is the same as
projecting once. -/
theorem c9_project_idempotent (records : List Record) (columns : List String) :
    ensure_columns (ensure_columns records columns) columns
      = ensure_columns records columns := by
  unfold ensure_columns
  rw [List.map_map]
  refine List.map_congr_left ?_
  intro record _
  refine List.map_congr_left ?_
  intro col hcol
  simp only [Function.comp_apply]
  rw [pyGet_projected record hcol]

/-- Claim C10: projection keeps the record count and the record order — the
output has the same length as the input and its i-th entry is the projection
of the i-th input record. -/
theorem c10_project_pointwise (records : List Record) (columns : List String) :
    (ensure_columns records columns).length = records.length ∧
    ∀ (i : Nat) (h1 : i < (ensure_columns records columns).length)
      (h2 : i < records.length),
      (ensure_columns records columns)[i] =
        columns.map (fun col => (col, pyGet (records[i]) col)) := by
  refine ⟨by simp [ensure_columns], ?_⟩
  intro i h1 h2
  simp [ensure_columns]

/-- Witness for claim C10 on `recs0` and `cols0`. -/
theorem c10_witness :
    (ensure_columns recs0 cols0).get ⟨0, by decide⟩ =
      [("name", some ("Acme")), ("missing", none)] := by
  have h := (c10_project_pointwise recs0 cols0).2 0 (by decide) (by decide)
  exact (List.get_eq_getElem _ _).trans (h.trans (by decide))

/-- Claim C1 counterexample: with height readings 100 then 200 onward and
`stop_after_unchanged = 3`, a `max_scrolls` of 10 (which is larger than 4)
does not stop the loop at 4 height measurements. -/
theorem c1_counterexample :
    4 < 10 ∧ scroll_page heightsC1 ⟨some 10, none, some 3⟩ ≠ 4 := by decide

/-- Claim C1 as amended: with height readings 100 then 200 onward and
`stop_after_unchanged = 3`, the loop halts after exactly 5 height
measurements for every `max_scrolls` larger than 4 — the first reading
differs from the 0 baseline, the second is the growth to 200, and only the
following three readings are counted as unchanged. -/
theorem c1_scroll_five_measurements (max_scrolls : Nat) (h : 4 < max_scrolls) :
    scroll_page heightsC1 ⟨some max_scrolls, none, some 3⟩ = 5 := by
  obtain ⟨j, rfl⟩ : ∃ j, max_scrolls = j + 5 := ⟨max_scrolls - 5, by omega⟩
  rfl

/-- Witness for the amended claim C1 at `max_scrolls = 10`. -/
theorem c1_witness : scroll_page heightsC1 ⟨some 10, none, some 3⟩ = 5 :=
  c1_scroll_five_measurements 10 (by decide)

/-- Claim C2 as amended: on an unknown mode with a non-empty `start_urls`
the run raises the configuration error, but only after exactly one navigation
— the `page.goto` to the first start URL precedes the mode dispatch. -/
theorem c2_unknown_mode (pages : Nat → UrlSession) (config : Config)
    (u : String) (rest : List String)
    (hurls : config.start_urls = u :: rest)
    (h1 : config.mode.getD ("infinite_scroll") ≠ "infinite_scroll")
    (h2 : config.mode.getD ("infinite_scroll") ≠ "pagination") :
    mainRun pages config =
      ([u], Except.error ("Unknown mode: " ++ config.mode.getD ("infinite_scroll"))) := by
  have hp : processUrl (pages 0) config =
      Except.error ("Unknown mode: " ++ config.mode.getD ("infinite_scroll")) := by
    unfold processUrl
    rw [if_neg h1, if_neg h2]
  unfold mainRun
  rw [hurls]
  unfold mainLoop
  rw [hp]
  rfl

/-- Claim C2 counterexample: a run whose mode is `"bogus"` fails with the
configuration error, yet its navigation trace is not empty — the first start
URL was navigated to before the failure. -/
theorem c2_counterexample :
    (mainRun (fun _ => sessionTriv) cfgBadMode).1 = ["https://example.com"] ∧
    (mainRun (fun _ => sessionTriv) cfgBadMode).1 ≠ [] ∧
    (mainRun (fun _ => sessionTriv) cfgBadMode).2 =
      Except.error ("Unknown mode: bogus") := by
  refine ⟨rfl, by decide, rfl⟩

/-- Witness for the amended claim C2 on the concrete `cfgBadMode`. -/
theorem c2_witness :
    mainRun (fun _ => sessionTriv) cfgBadMode =
      (["https://example.com"], Except.error ("Unknown mode: bogus")) := by
  have h := c2_unknown_mode (fun _ => sessionTriv) cfgBadMode ("https://example.com") []
    rfl (by decide) (by decide)
  exact h.trans rfl

/-- Claim C3 as amended: with no next-button selector configured, the click
pagination loop invokes the extraction callback exactly once and returns its
results — provided `max_pages` is at least 1; with `max_pages = 0` the
callback is never invoked. -/
theorem c3_single_page (nextFound : Nat → Bool) (pagination_config : PaginationConfig)
    (extract_callback : Nat → List Record)
    (hnext : truthyStr pagination_config.next_button_selector = false)
    (hmax : 1 ≤ pagination_config.max_pages.getD 50) :
    paginate nextFound pagination_config extract_callback = (extract_callback 0, 1) := by
  obtain ⟨j, hj⟩ : ∃ j, pagination_config.max_pages.getD 50 = j + 1 :=
    ⟨pagination_config.max_pages.getD 50 - 1, by omega⟩
  unfold paginate
  rw [hnext, hj]
  simp [paginateAux]

/-- Claim C3 counterexample: with no next-button selector and `max_pages = 0`
the extraction callback is invoked zero times, not exactly once, and its
(nonempty) results are not returned. -/
theorem c3_counterexample :
    paginate (fun _ => false) ⟨none, none, none, some 0, none⟩ cbOne = ([], 0) ∧
    cbOne 0 ≠ [] := by decide

/-- Witness for the amended claim C3 at `max_pages = 3`. -/
theorem c3_witness :
    paginate (fun _ => false) ⟨none, none, none, some 3, none⟩ cbOne =
      ([[("name", some ("x"))]], 1) := by
  have h := c3_single_page (fun _ => false) ⟨none, none, none, some 3, none⟩ cbOne
    rfl (by decide)
  exact h.trans (by decide)
